import Mathlib

/-!
Verification of `newt/mfg/meta.go` (manufacturing meta region encoder,
inserter and hash patcher) from apache mynewt's `newt` tool.

Bytes are modelled as `Nat` values (< 256 for well-formed data); a Go byte
slice is a `List Nat`.  Go's in-place mutation is modelled by explicit state
passing: a function that mutates a slice returns the new list.  Go slice
indexing and slicing panics are modelled with `Option` (`none` = panic).
Machine-integer conversions (`uint8(..)`, `uint16(..)`, `uint32(..)`) are
modelled with explicit `% 2^w`.
-/

namespace MfgMeta

/-! ### Constants (from meta.go) -/

def META_MAGIC : Nat := 0x3bb2a269
def META_VERSION : Nat := 1
def META_TLV_CODE_HASH : Nat := 0x01
def META_TLV_CODE_FLASH_AREA : Nat := 0x02

def META_HASH_SZ : Nat := 32
def META_FOOTER_SZ : Nat := 8
def META_TLV_HASH_SZ : Nat := META_HASH_SZ
def META_TLV_FLASH_AREA_SZ : Nat := 12

/-! ### Little-endian serialization
`encoding/binary.Write` with `binary.LittleEndian` writes a `uint16` as two
bytes and a `uint32` as four bytes, least significant first; a Go integer
conversion to a narrower unsigned type truncates, which the `% 256` in each
byte performs. -/

/-- Little-endian bytes of a `uint16` value (value taken mod 2^16). -/
def le16 (x : Nat) : List Nat := [x % 256, x / 256 % 256]

/-- Little-endian bytes of a `uint32` value (value taken mod 2^32). -/
def le32 (x : Nat) : List Nat :=
  [x % 256, x / 256 % 256, x / 2 ^ 16 % 256, x / 2 ^ 24 % 256]

/-- Decode two little-endian bytes back to a value. -/
def decodeLe16 (bs : List Nat) : Nat := bs.getD 0 0 + 256 * bs.getD 1 0

/-- Decode four little-endian bytes back to a value. -/
def decodeLe32 (bs : List Nat) : Nat :=
  bs.getD 0 0 + 256 * bs.getD 1 0 + 2 ^ 16 * bs.getD 2 0 + 2 ^ 24 * bs.getD 3 0

/-! ### Flash data model
Modelled from the spec: the `flash` package
(`mynewt.apache.org/newt/newt/flash`) is not part of the sources; the spec
describes a `FlashArea` as id / device / offset / size (ints), and a
`FlashMap` as a name-to-area mapping exposing a deterministic sequence of
its areas sorted by identity, with a reserved boot-loader area name. -/

/-- Modelled from the spec: `flash.FlashArea` — id (small integer), device
(small integer), offset and size in bytes. -/
structure FlashArea where
  id : Nat
  device : Nat
  offset : Nat
  size : Nat
deriving DecidableEq, Repr

/-- Modelled from the spec: the reserved boot-loader area name
(`flash.FLASH_AREA_NAME_BOOTLOADER`). -/
def FLASH_AREA_NAME_BOOTLOADER : String := "FLASH_AREA_BOOTLOADER"

/-- Modelled from the spec: `flash.FlashMap` — a mapping from area name to
`FlashArea` with unique keys. -/
structure FlashMap where
  areas : List (String × FlashArea)
deriving DecidableEq, Repr

/-- Stable insertion of an area into a list sorted by `id`. -/
def insertById (a : FlashArea) : List FlashArea → List FlashArea
  | [] => [a]
  | b :: bs => if a.id ≤ b.id then a :: b :: bs else b :: insertById a bs

/-- Stable insertion sort by area `id`. -/
def sortAreasById : List FlashArea → List FlashArea
  | [] => []
  | a :: rest => insertById a (sortAreasById rest)

/-- Modelled from the spec: `FlashMap.SortedAreas` — the map's areas as a
deterministic sequence sorted by identity. -/
def FlashMap.sortedAreas (fm : FlashMap) : List FlashArea :=
  sortAreasById (fm.areas.map Prod.snd)

/-- Modelled from the spec: lookup of an area by name
(`flashMap.Areas[name]`), `none` when absent. -/
def FlashMap.lookup (fm : FlashMap) (name : String) : Option FlashArea :=
  (fm.areas.find? (fun p => p.1 == name)).map Prod.snd

/-! ### Byte-buffer primitives -/

/-- Go's `copy(dst[i:], src)` / sequential element assignment: write the
bytes of `src` into `dst` starting at index `i`.  `List.set` is a no-op
past the end of the list, which matches Go `copy`'s truncation to the
destination's length. -/
def writeBytes : List Nat → Nat → List Nat → List Nat
  | dst, _, [] => dst
  | dst, i, b :: bs => writeBytes (dst.set i b) (i + 1) bs

/-- The erased-space scan loop of `insertMeta`:
`for i := start; i < start+count; i++ { if blob[i] != 0xff { ... } }`.
`none` models the index-out-of-range panic of `blob[i]`; `some false`
means a non-0xff byte was found (error return); `some true` means every
scanned byte was 0xff. -/
def scanErased (blob : List Nat) : Nat → Nat → Option Bool
  | _, 0 => some true
  | i, n + 1 =>
    match blob[i]? with
    | none => none
    | some b => if b = 0xff then scanErased blob (i + 1) n else some false

/-! ### Errors -/

/-- The error outcomes of `insertMeta` (`util.NewtError` values).
`encodingFailure` corresponds to `util.ChildNewtError` from `writeElem`. -/
inductive MetaErr where
  | missingBootArea : MetaErr
  | regionTooLarge : Nat → Nat → MetaErr
  | spaceOccupied : Nat → MetaErr
  | encodingFailure : MetaErr
deriving DecidableEq, Repr

/-! ### Region encoding (writeElem / writeHeader / writeFlashArea /
writeZeroHash / writeFooter) -/

/-- `writeElem`: `binary.Write(buf, binary.LittleEndian, elem)` appends the
little-endian serialization of a fixed-size record to a `bytes.Buffer`.
`bytes.Buffer.Write` never returns an error and `binary.Write` fails only
for non-fixed-size data, which none of the records here are, so the result
is always `ok`; the `Except` shape mirrors the Go signature. -/
def writeElem (bs : List Nat) (buf : List Nat) : Except MetaErr (List Nat) :=
  Except.ok (buf ++ bs)

/-- Serialized `metaHeader{version: META_VERSION, pad8: 0xff, pad16: 0xffff}`. -/
def headerBytes : List Nat := [META_VERSION, 0xff, 0xff, 0xff]

/-- `writeHeader`. -/
def writeHeader (buf : List Nat) : Except MetaErr (List Nat) :=
  writeElem headerBytes buf

/-- Serialized `metaTlvFlashArea` for one area: TLV header
(code 0x02, size 12), then `uint8(Id)`, `uint8(Device)`, pad 0xffff,
`uint32(Offset)`, `uint32(Size)`. -/
def flashAreaBytes (a : FlashArea) : List Nat :=
  [META_TLV_CODE_FLASH_AREA, META_TLV_FLASH_AREA_SZ,
   a.id % 256, a.device % 256, 0xff, 0xff] ++ le32 a.offset ++ le32 a.size

/-- `writeFlashArea`. -/
def writeFlashArea (a : FlashArea) (buf : List Nat) : Except MetaErr (List Nat) :=
  writeElem (flashAreaBytes a) buf

/-- Serialized `metaTlvHash` with an all-zero hash: TLV header
(code 0x01, size 32) followed by 32 zero bytes. -/
def zeroHashBytes : List Nat :=
  [META_TLV_CODE_HASH, META_TLV_HASH_SZ] ++ List.replicate META_HASH_SZ 0

/-- `writeZeroHash`. -/
def writeZeroHash (buf : List Nat) : Except MetaErr (List Nat) :=
  writeElem zeroHashBytes buf

/-- Serialized `metaFooter` for a buffer currently `n` bytes long:
`size = uint16(n + META_FOOTER_SZ)`, pad 0xffff, magic. -/
def footerBytes (n : Nat) : List Nat :=
  le16 (n + META_FOOTER_SZ) ++ [0xff, 0xff] ++ le32 META_MAGIC

/-- `writeFooter`: the size field is computed from the buffer length at the
time of the call. -/
def writeFooter (buf : List Nat) : Except MetaErr (List Nat) :=
  writeElem (footerBytes buf.length) buf

/-- The `for _, area := range flashMap.SortedAreas()` loop of `insertMeta`,
appending one flash-area TLV per area and propagating any error. -/
def writeAreas : List FlashArea → List Nat → Except MetaErr (List Nat)
  | [], buf => Except.ok buf
  | a :: rest, buf =>
    match writeFlashArea a buf with
    | Except.error e => Except.error e
    | Except.ok buf' => writeAreas rest buf'

/-! ### insertMeta -/

/-- `insertMeta(section0Data, flashMap)`: builds the meta region, validates
placement at the tail of the boot-loader area, scans the destination for
erased flash, and copies the region in.  Result: `none` models a Go panic
(out-of-range index in the scan, or `section0Data[metaOff:]` with
`metaOff > len`); otherwise `some (result, final blob)` where `result` is
the returned hash offset or the returned error, and the final blob is the
state of `section0Data` when the function returns. -/
def insertMeta (section0Data : List Nat) (flashMap : FlashMap) :
    Option (Except MetaErr Nat × List Nat) :=
  match writeHeader [] with
  | Except.error e => some (Except.error e, section0Data)
  | Except.ok buf1 =>
  match writeAreas flashMap.sortedAreas buf1 with
  | Except.error e => some (Except.error e, section0Data)
  | Except.ok buf2 =>
  match writeZeroHash buf2 with
  | Except.error e => some (Except.error e, section0Data)
  | Except.ok buf3 =>
  let hashSubOff := buf3.length - META_HASH_SZ
  match writeFooter buf3 with
  | Except.error e => some (Except.error e, section0Data)
  | Except.ok buf =>
  match flashMap.lookup FLASH_AREA_NAME_BOOTLOADER with
  | none => some (Except.error MetaErr.missingBootArea, section0Data)
  | some bootArea =>
    if bootArea.size < buf.length then
      some (Except.error (MetaErr.regionTooLarge bootArea.size buf.length),
            section0Data)
    else
      let metaOff := bootArea.offset + bootArea.size - buf.length
      match scanErased section0Data metaOff (bootArea.size - metaOff) with
      | none => none
      | some false =>
        some (Except.error (MetaErr.spaceOccupied metaOff), section0Data)
      | some true =>
        if metaOff ≤ section0Data.length then
          some (Except.ok (metaOff + hashSubOff),
                writeBytes section0Data metaOff buf)
        else none

/-! ### Hash patcher (calcMetaHash / fillMetaHash)
`crypto/sha256` is the Go standard library, outside this repository; the
digest function is taken as a parameter `sha`.  The claims proved below
hold for every digest function producing 32 bytes, in particular SHA-256. -/

/-- The zeroing loop of `calcMetaHash`:
`for i := 0; i < META_HASH_SZ; i++ { blob[hashOffset+i] = 0 }`. -/
def zeroHashField (blob : List Nat) (hashOffset : Nat) : List Nat :=
  writeBytes blob hashOffset (List.replicate META_HASH_SZ 0)

/-- `calcMetaHash(mfgImageBlob, hashOffset)`: save the 32 bytes at the hash
offset, zero them, hash the whole blob, restore the saved bytes, and return
(final blob state, digest).  Valid only for `hashOffset + 32 ≤ len` (Go
panics otherwise); the theorems carry that hypothesis. -/
def calcMetaHash (sha : List Nat → List Nat) (mfgImageBlob : List Nat)
    (hashOffset : Nat) : List Nat × List Nat :=
  let oldContents := (mfgImageBlob.drop hashOffset).take META_HASH_SZ
  let zeroed := zeroHashField mfgImageBlob hashOffset
  let hash := sha zeroed
  (writeBytes zeroed hashOffset oldContents, hash)

/-- `fillMetaHash(mfgImageBlob, hashOffset)`: compute the digest with
`calcMetaHash` and copy it over the 32 bytes at the hash offset
(`copy` truncates to 32 bytes, hence `take`). -/
def fillMetaHash (sha : List Nat → List Nat) (mfgImageBlob : List Nat)
    (hashOffset : Nat) : List Nat :=
  let r := calcMetaHash sha mfgImageBlob hashOffset
  writeBytes r.1 hashOffset (r.2.take META_HASH_SZ)

/-! ### Derived descriptions of the encoded region -/

/-- The region bytes before the footer: header, one TLV per area, zero hash. -/
def metaBody (areas : List FlashArea) : List Nat :=
  headerBytes ++ (areas.map flashAreaBytes).flatten ++ zeroHashBytes

/-- The complete encoded meta region for a sequence of areas. -/
def metaRegion (areas : List FlashArea) : List Nat :=
  metaBody areas ++ footerBytes (metaBody areas).length

/-- The hash payload's offset inside the region buffer
(`buf.Len() - META_HASH_SZ` right after `writeZeroHash`). -/
def hashSubOffset (areas : List FlashArea) : Nat :=
  (metaBody areas).length - META_HASH_SZ

/-! ### Helper lemmas -/

theorem length_writeBytes (src : List Nat) (dst : List Nat) (i : Nat) :
    (writeBytes dst i src).length = dst.length := by
  induction src generalizing dst i with
  | nil => rfl
  | cons b bs ih => simp [writeBytes, ih, List.length_set]

theorem writeBytes_get_out (src : List Nat) (dst : List Nat) (i j : Nat)
    (h : j < i ∨ i + src.length ≤ j) :
    (writeBytes dst i src)[j]? = dst[j]? := by
  induction src generalizing dst i with
  | nil => rfl
  | cons b bs ih =>
    have hne : i ≠ j := by
      rcases h with h | h
      · omega
      · simp only [List.length_cons] at h; omega
    have hout : j < i + 1 ∨ (i + 1) + bs.length ≤ j := by
      rcases h with h | h
      · omega
      · simp only [List.length_cons] at h; omega
    simp only [writeBytes]
    rw [ih (dst.set i b) (i + 1) hout]
    simp [List.getElem?_set_ne hne]

theorem writeBytes_get_in (src : List Nat) (dst : List Nat) (i j : Nat)
    (h1 : i ≤ j) (h2 : j < i + src.length) (h3 : j < dst.length) :
    (writeBytes dst i src)[j]? = src[j - i]? := by
  induction src generalizing dst i with
  | nil => simp only [List.length_nil] at h2; omega
  | cons b bs ih =>
    simp only [writeBytes]
    rcases Nat.eq_or_lt_of_le h1 with he | hlt
    · subst he
      rw [writeBytes_get_out bs (dst.set i b) (i + 1) i (Or.inl (Nat.lt_succ_self i))]
      simp [List.getElem?_set_self, h3]
    · have hle : (i + 1) ≤ j := hlt
      rw [ih (dst.set i b) (i + 1) hle
        (by simp only [List.length_cons] at h2; omega)
        (by simp [List.length_set, h3])]
      have hsub : j - i = (j - (i + 1)) + 1 := by omega
      simp [hsub]

theorem scanErased_eq_true (blob : List Nat) (i n : Nat)
    (h : ∀ j, i ≤ j → j < i + n → blob[j]? = some 0xff) :
    scanErased blob i n = some true := by
  induction n generalizing i with
  | zero => rfl
  | succ m ih =>
    have hi : blob[i]? = some 0xff := h i (Nat.le_refl i) (by omega)
    have hrec := ih (i + 1) (fun j hj1 hj2 => h j (by omega) (by omega))
    simp [scanErased, hi, hrec]

theorem scanErased_ne_none (blob : List Nat) (i n : Nat)
    (h : i + n ≤ blob.length) :
    scanErased blob i n ≠ none := by
  induction n generalizing i with
  | zero => simp [scanErased]
  | succ m ih =>
    have hlt : i < blob.length := by omega
    have hb : blob[i]? = some blob[i] := List.getElem?_eq_getElem hlt
    simp only [scanErased, hb]
    by_cases hbf : blob[i] = 0xff
    · have hrec := ih (i + 1) (by omega)
      simp [hbf, hrec]
    · simp [hbf]

theorem writeAreas_ok (as : List FlashArea) (buf : List Nat) :
    writeAreas as buf = Except.ok (buf ++ (as.map flashAreaBytes).flatten) := by
  induction as generalizing buf with
  | nil => simp [writeAreas]
  | cons a rest ih =>
    simp [writeAreas, writeFlashArea, writeElem, ih, List.append_assoc]

theorem le32_length (x : Nat) : (le32 x).length = 4 := by simp [le32]

theorem flashAreaBytes_length (a : FlashArea) : (flashAreaBytes a).length = 14 := by
  simp [flashAreaBytes, le32]

theorem zeroHashBytes_length : zeroHashBytes.length = 34 := by
  simp [zeroHashBytes, META_HASH_SZ]

theorem footerBytes_length (n : Nat) : (footerBytes n).length = 8 := by
  simp [footerBytes, le16, le32]

theorem flashAreaBytes_flatten_length (l : List FlashArea) :
    ((l.map flashAreaBytes).flatten).length = 14 * l.length := by
  induction l with
  | nil => simp
  | cons a rest ih =>
    simp only [List.map_cons, List.flatten_cons, List.length_append,
      flashAreaBytes_length, ih, List.length_cons]
    omega

theorem metaBody_length (as : List FlashArea) :
    (metaBody as).length = 38 + 14 * as.length := by
  simp only [metaBody, List.length_append, flashAreaBytes_flatten_length,
    zeroHashBytes_length, headerBytes, List.length_cons, List.length_nil]
  omega

theorem metaRegion_length (as : List FlashArea) :
    (metaRegion as).length = 46 + 14 * as.length := by
  simp [metaRegion, metaBody_length, footerBytes_length]
  omega

theorem hashSubOffset_eq (as : List FlashArea) :
    hashSubOffset as = 6 + 14 * as.length := by
  simp [hashSubOffset, metaBody_length, META_HASH_SZ]
  omega

/-- `insertMeta` in solved form: the encoding pipeline never fails and
produces `metaRegion`, after which only the placement logic remains. -/
theorem insertMeta_eq (blob : List Nat) (fm : FlashMap) :
    insertMeta blob fm =
      match fm.lookup FLASH_AREA_NAME_BOOTLOADER with
      | none => some (Except.error MetaErr.missingBootArea, blob)
      | some ba =>
        if ba.size < (metaRegion fm.sortedAreas).length then
          some (Except.error
            (MetaErr.regionTooLarge ba.size (metaRegion fm.sortedAreas).length),
            blob)
        else
          let metaOff := ba.offset + ba.size - (metaRegion fm.sortedAreas).length
          match scanErased blob metaOff (ba.size - metaOff) with
          | none => none
          | some false =>
            some (Except.error (MetaErr.spaceOccupied metaOff), blob)
          | some true =>
            if metaOff ≤ blob.length then
              some (Except.ok (metaOff + hashSubOffset fm.sortedAreas),
                    writeBytes blob metaOff (metaRegion fm.sortedAreas))
            else none := by
  simp only [insertMeta, writeHeader, writeZeroHash, writeFooter, writeElem,
    writeAreas_ok, List.nil_append, metaRegion, metaBody, hashSubOffset,
    List.append_assoc]

/-- Inversion of a successful `insertMeta`: the region fits, the returned
offset is `metaOff + hashSubOff`, and the final blob is the input blob with
the region copied in at `metaOff`. -/
theorem insertMeta_ok_inv (blob : List Nat) (fm : FlashMap) (ba : FlashArea)
    (off : Nat) (blob' : List Nat)
    (hba : fm.lookup FLASH_AREA_NAME_BOOTLOADER = some ba)
    (h : insertMeta blob fm = some (Except.ok off, blob')) :
    (metaRegion fm.sortedAreas).length ≤ ba.size ∧
    off = (ba.offset + ba.size - (metaRegion fm.sortedAreas).length)
            + hashSubOffset fm.sortedAreas ∧
    blob' = writeBytes blob
      (ba.offset + ba.size - (metaRegion fm.sortedAreas).length)
      (metaRegion fm.sortedAreas) ∧
    ba.offset + ba.size - (metaRegion fm.sortedAreas).length ≤ blob.length := by
  rw [insertMeta_eq, hba] at h
  by_cases hsz : ba.size < (metaRegion fm.sortedAreas).length
  · simp [hsz] at h
  · simp only [hsz, if_false] at h
    cases hscan : scanErased blob
        (ba.offset + ba.size - (metaRegion fm.sortedAreas).length)
        (ba.size - (ba.offset + ba.size - (metaRegion fm.sortedAreas).length)) with
    | none => rw [hscan] at h; simp at h
    | some b =>
      rw [hscan] at h
      cases b with
      | false => simp at h
      | true =>
        by_cases hlen : ba.offset + ba.size - (metaRegion fm.sortedAreas).length
            ≤ blob.length
        · simp only [hlen, if_true] at h
          obtain ⟨h1, h2⟩ := Prod.mk.injEq .. ▸ (Option.some.injEq .. ▸ h)
          have h1' := Except.ok.injEq .. ▸ h1
          exact ⟨Nat.le_of_not_lt hsz, h1'.symm, h2.symm, hlen⟩
        · simp [hlen] at h

/-- Inversion of a failed `insertMeta`: the blob is returned unchanged. -/
theorem insertMeta_error_inv (blob : List Nat) (fm : FlashMap) (e : MetaErr)
    (blob' : List Nat)
    (h : insertMeta blob fm = some (Except.error e, blob')) :
    blob' = blob := by
  rw [insertMeta_eq] at h
  cases hba : fm.lookup FLASH_AREA_NAME_BOOTLOADER with
  | none => rw [hba] at h; simp at h; exact h.2.symm
  | some ba =>
    rw [hba] at h
    by_cases hsz : ba.size < (metaRegion fm.sortedAreas).length
    · simp [hsz] at h; exact h.2.symm
    · simp only [hsz, if_false] at h
      cases hscan : scanErased blob
          (ba.offset + ba.size - (metaRegion fm.sortedAreas).length)
          (ba.size - (ba.offset + ba.size - (metaRegion fm.sortedAreas).length)) with
      | none => rw [hscan] at h; simp at h
      | some b =>
        rw [hscan] at h
        cases b with
        | false => simp at h; exact h.2.symm
        | true =>
          by_cases hlen : ba.offset + ba.size - (metaRegion fm.sortedAreas).length
              ≤ blob.length
          · simp [hlen] at h
          · simp [hlen] at h

/-- The error of a failed `insertMeta` is one of the three placement errors. -/
theorem insertMeta_error_shape (blob : List Nat) (fm : FlashMap) (e : MetaErr)
    (blob' : List Nat)
    (h : insertMeta blob fm = some (Except.error e, blob')) :
    e = MetaErr.missingBootArea ∨
    (∃ bootSz metaSz, e = MetaErr.regionTooLarge bootSz metaSz) ∨
    (∃ metaOff, e = MetaErr.spaceOccupied metaOff) := by
  rw [insertMeta_eq] at h
  cases hba : fm.lookup FLASH_AREA_NAME_BOOTLOADER with
  | none => rw [hba] at h; simp at h; exact Or.inl h.1.symm
  | some ba =>
    rw [hba] at h
    by_cases hsz : ba.size < (metaRegion fm.sortedAreas).length
    · simp [hsz] at h
      exact Or.inr (Or.inl ⟨ba.size, (metaRegion fm.sortedAreas).length, h.1.symm⟩)
    · simp only [hsz, if_false] at h
      cases hscan : scanErased blob
          (ba.offset + ba.size - (metaRegion fm.sortedAreas).length)
          (ba.size - (ba.offset + ba.size - (metaRegion fm.sortedAreas).length)) with
      | none => rw [hscan] at h; simp at h
      | some b =>
        rw [hscan] at h
        cases b with
        | false =>
          simp at h
          exact Or.inr (Or.inr
            ⟨ba.offset + ba.size - (metaRegion fm.sortedAreas).length, h.1.symm⟩)
        | true =>
          by_cases hlen : ba.offset + ba.size - (metaRegion fm.sortedAreas).length
              ≤ blob.length
          · simp [hlen] at h
          · simp [hlen] at h

/-- Construction of a successful `insertMeta`: when the region fits, the
blob spans through the end of the boot-loader area, and the scanned window
is erased, the insertion succeeds with the region written at `metaOff`. -/
theorem insertMeta_success (blob : List Nat) (fm : FlashMap) (ba : FlashArea)
    (hba : fm.lookup FLASH_AREA_NAME_BOOTLOADER = some ba)
    (hfit : (metaRegion fm.sortedAreas).length ≤ ba.size)
    (hblob : ba.offset + ba.size ≤ blob.length)
    (herased : ∀ j, ba.offset + ba.size - (metaRegion fm.sortedAreas).length ≤ j →
      j < ba.size → blob[j]? = some 0xff) :
    insertMeta blob fm
      = some (Except.ok
          ((ba.offset + ba.size - (metaRegion fm.sortedAreas).length)
            + hashSubOffset fm.sortedAreas),
          writeBytes blob
            (ba.offset + ba.size - (metaRegion fm.sortedAreas).length)
            (metaRegion fm.sortedAreas)) := by
  rw [insertMeta_eq, hba]
  have hsz : ¬ ba.size < (metaRegion fm.sortedAreas).length := Nat.not_lt.mpr hfit
  have hscan : scanErased blob
      (ba.offset + ba.size - (metaRegion fm.sortedAreas).length)
      (ba.size - (ba.offset + ba.size - (metaRegion fm.sortedAreas).length))
      = some true := by
    apply scanErased_eq_true
    intro j hj1 hj2
    exact herased j hj1 (by omega)
  have hlen : ba.offset + ba.size - (metaRegion fm.sortedAreas).length
      ≤ blob.length := by omega
  simp [hsz, hscan, hlen]

theorem length_insertById (a : FlashArea) (l : List FlashArea) :
    (insertById a l).length = l.length + 1 := by
  induction l with
  | nil => rfl
  | cons b bs ih =>
    by_cases h : a.id ≤ b.id
    · simp [insertById, h]
    · simp [insertById, h, ih]

theorem length_sortAreasById (l : List FlashArea) :
    (sortAreasById l).length = l.length := by
  induction l with
  | nil => rfl
  | cons a rest ih => simp [sortAreasById, length_insertById, ih]

theorem length_sortedAreas (fm : FlashMap) :
    fm.sortedAreas.length = fm.areas.length := by
  simp [FlashMap.sortedAreas, length_sortAreasById]

/-- The last 8 bytes of the encoded region are the footer. -/
theorem metaRegion_drop_footer (as : List FlashArea) :
    (metaRegion as).drop ((metaRegion as).length - 8)
      = footerBytes (metaBody as).length := by
  have hlf : (footerBytes (metaBody as).length).length = 8 := footerBytes_length _
  have hlen : (metaRegion as).length = (metaBody as).length + 8 := by
    simp [metaRegion, hlf]
  rw [hlen]
  have : (metaBody as).length + 8 - 8 = (metaBody as).length := by omega
  rw [this, metaRegion, List.drop_left]

/-- The stored footer size field decodes to the region length mod 2^16. -/
theorem decodeLe16_footerBytes (n : Nat) :
    decodeLe16 (footerBytes n) = (n + META_FOOTER_SZ) % 2 ^ 16 := by
  simp [footerBytes, le16, le32, decodeLe16, META_FOOTER_SZ]
  omega

/-- The last 4 bytes of the encoded region are the little-endian magic. -/
theorem metaRegion_magic (as : List FlashArea) :
    (metaRegion as).drop ((metaRegion as).length - 4) = le32 META_MAGIC := by
  have hlf : (footerBytes (metaBody as).length).length = 8 := footerBytes_length _
  have hlen : (metaRegion as).length = (metaBody as).length + 8 := by
    simp [metaRegion, hlf]
  rw [hlen]
  have h4 : (metaBody as).length + 8 - 4 = (metaBody as).length + 4 := by omega
  rw [h4, metaRegion, List.drop_append]
  simp [footerBytes, le16]

/-- The 32 bytes of the region starting at `hashSubOffset` are all zero. -/
theorem metaRegion_zero_window (as : List FlashArea) (k : Nat)
    (hk : k < META_HASH_SZ) :
    (metaRegion as)[hashSubOffset as + k]? = some 0 := by
  have hpre : metaBody as
      = (headerBytes ++ (as.map flashAreaBytes).flatten
          ++ [META_TLV_CODE_HASH, META_TLV_HASH_SZ]) ++ List.replicate META_HASH_SZ 0 := by
    simp [metaBody, zeroHashBytes, List.append_assoc]
  have hprelen : (headerBytes ++ (as.map flashAreaBytes).flatten
      ++ [META_TLV_CODE_HASH, META_TLV_HASH_SZ]).length = hashSubOffset as := by
    simp only [List.length_append, flashAreaBytes_flatten_length, headerBytes,
      List.length_cons, List.length_nil, hashSubOffset_eq]
    omega
  have hsub : hashSubOffset as + k < (metaBody as).length := by
    rw [hashSubOffset_eq, metaBody_length]
    simp only [META_HASH_SZ] at hk
    omega
  have hbody : (metaBody as)[hashSubOffset as + k]? = some 0 := by
    rw [hpre]
    rw [← hprelen]
    rw [List.getElem?_append_right (by omega)]
    have : (headerBytes ++ (as.map flashAreaBytes).flatten
        ++ [META_TLV_CODE_HASH, META_TLV_HASH_SZ]).length + k
        - (headerBytes ++ (as.map flashAreaBytes).flatten
        ++ [META_TLV_CODE_HASH, META_TLV_HASH_SZ]).length = k := by omega
    rw [this]
    simp [List.getElem?_replicate, Nat.lt_of_lt_of_le hk (Nat.le_refl _)]
  rw [metaRegion]
  simp only [List.getElem?_append, hsub, if_true]
  exact hbody

/-! ### Hash-patcher lemmas -/

theorem length_zeroHashField (blob : List Nat) (off : Nat) :
    (zeroHashField blob off).length = blob.length := by
  simp [zeroHashField, length_writeBytes]

theorem zeroHashField_get_out (blob : List Nat) (off j : Nat)
    (hj : j < off ∨ off + META_HASH_SZ ≤ j) :
    (zeroHashField blob off)[j]? = blob[j]? := by
  apply writeBytes_get_out
  simpa using hj

theorem zeroHashField_get_in (blob : List Nat) (off k : Nat)
    (hk : k < META_HASH_SZ) (hlen : off + k < blob.length) :
    (zeroHashField blob off)[off + k]? = some 0 := by
  rw [zeroHashField, writeBytes_get_in _ _ _ _ (Nat.le_add_right off k)
    (by simpa using by omega) hlen]
  simp only [Nat.add_sub_cancel_left]
  simp [List.getElem?_replicate, hk]

/-- The saved-bytes slice has full hash length when the offset is valid. -/
theorem oldContents_length (blob : List Nat) (off : Nat)
    (h : off + META_HASH_SZ ≤ blob.length) :
    ((blob.drop off).take META_HASH_SZ).length = META_HASH_SZ := by
  simp only [List.length_take, List.length_drop]
  omega

/-- `calcMetaHash` restores the blob: its final state equals its input. -/
theorem calcMetaHash_fst (sha : List Nat → List Nat) (blob : List Nat)
    (off : Nat) (h : off + META_HASH_SZ ≤ blob.length) :
    (calcMetaHash sha blob off).1 = blob := by
  have hold : ((blob.drop off).take META_HASH_SZ).length = META_HASH_SZ :=
    oldContents_length blob off h
  apply List.ext_getElem?
  intro j
  show (writeBytes (zeroHashField blob off) off
    ((blob.drop off).take META_HASH_SZ))[j]? = blob[j]?
  by_cases hw : off ≤ j ∧ j < off + META_HASH_SZ
  · have hjlen : j < (zeroHashField blob off).length := by
      rw [length_zeroHashField]; omega
    rw [writeBytes_get_in _ _ _ _ hw.1 (by rw [hold]; exact hw.2) hjlen]
    have hk : j - off < META_HASH_SZ := by omega
    rw [List.getElem?_take, if_pos hk, List.getElem?_drop]
    congr 1
    omega
  · have hout : j < off ∨ off + META_HASH_SZ ≤ j := by omega
    rw [writeBytes_get_out _ _ _ _ (by rw [hold]; exact hout)]
    exact zeroHashField_get_out blob off j hout

theorem length_fillMetaHash (sha : List Nat → List Nat) (blob : List Nat)
    (off : Nat) : (fillMetaHash sha blob off).length = blob.length := by
  simp [fillMetaHash, calcMetaHash, length_writeBytes, length_zeroHashField]

/-- Frame of `fillMetaHash`: bytes outside the 32-byte hash window are
unchanged. -/
theorem fillMetaHash_get_out (sha : List Nat → List Nat) (blob : List Nat)
    (off j : Nat) (h : off + META_HASH_SZ ≤ blob.length)
    (hj : j < off ∨ off + META_HASH_SZ ≤ j) :
    (fillMetaHash sha blob off)[j]? = blob[j]? := by
  show (writeBytes (calcMetaHash sha blob off).1 off
    ((calcMetaHash sha blob off).2.take META_HASH_SZ))[j]? = blob[j]?
  have htl : ((calcMetaHash sha blob off).2.take META_HASH_SZ).length
      ≤ META_HASH_SZ := by
    simp [List.length_take]
  rw [writeBytes_get_out _ _ _ _ (by omega)]
  rw [calcMetaHash_fst sha blob off h]

/-- The hash window of `fillMetaHash`'s result holds the digest of the
blob with the window zeroed. -/
theorem fillMetaHash_get_in (sha : List Nat → List Nat) (blob : List Nat)
    (off k : Nat) (h : off + META_HASH_SZ ≤ blob.length)
    (hsha : (sha (zeroHashField blob off)).length = META_HASH_SZ)
    (hk : k < META_HASH_SZ) :
    (fillMetaHash sha blob off)[off + k]? = (sha (zeroHashField blob off))[k]? := by
  show (writeBytes (calcMetaHash sha blob off).1 off
    ((calcMetaHash sha blob off).2.take META_HASH_SZ))[off + k]? = _
  have h2 : (calcMetaHash sha blob off).2 = sha (zeroHashField blob off) := rfl
  have htl : ((calcMetaHash sha blob off).2.take META_HASH_SZ).length
      = META_HASH_SZ := by
    rw [h2, List.length_take, hsha]
    simp
  have hjlen : off + k < (calcMetaHash sha blob off).1.length := by
    rw [calcMetaHash_fst sha blob off h]; omega
  rw [writeBytes_get_in _ _ _ _ (Nat.le_add_right off k)
    (by rw [htl]; omega) hjlen]
  simp only [Nat.add_sub_cancel_left, h2]
  rw [List.getElem?_take, if_pos hk]

/-- Zeroing the hash window of the patched blob recovers the zeroed blob
that was hashed. -/
theorem zeroHashField_fillMetaHash (sha : List Nat → List Nat)
    (blob : List Nat) (off : Nat) (h : off + META_HASH_SZ ≤ blob.length) :
    zeroHashField (fillMetaHash sha blob off) off = zeroHashField blob off := by
  apply List.ext_getElem?
  intro j
  by_cases hw : off ≤ j ∧ j < off + META_HASH_SZ
  · obtain ⟨k, hk⟩ : ∃ k, j = off + k := ⟨j - off, by omega⟩
    subst hk
    have hk32 : k < META_HASH_SZ := by omega
    rw [zeroHashField_get_in _ _ _ hk32 (by rw [length_fillMetaHash]; omega),
      zeroHashField_get_in _ _ _ hk32 (by omega)]
  · have hout : j < off ∨ off + META_HASH_SZ ≤ j := by omega
    rw [zeroHashField_get_out _ _ _ hout, zeroHashField_get_out _ _ _ hout]
    exact fillMetaHash_get_out sha blob off j h hout

/-- The stored footer size field of any encoded region decodes to the
region's total length mod 2^16 (the field is a `uint16`). -/
theorem decode_footer_mod (as : List FlashArea) :
    decodeLe16 ((metaRegion as).drop ((metaRegion as).length - 8))
      = (metaRegion as).length % 2 ^ 16 := by
  rw [metaRegion_drop_footer, decodeLe16_footerBytes]
  have h : (metaRegion as).length = (metaBody as).length + META_FOOTER_SZ := by
    simp [metaRegion, footerBytes_length, META_FOOTER_SZ]
  rw [h]

/-- Decoding four little-endian bytes of an in-range value recovers it. -/
theorem decodeLe32_le32_append (x : Nat) (rest : List Nat) (h : x < 2 ^ 32) :
    decodeLe32 (le32 x ++ rest) = x := by
  simp only [le32, decodeLe32, List.cons_append, List.nil_append, List.getD]
  simp only [List.get?_cons_zero, List.get?_cons_succ, Option.getD_some]
  omega

end MfgMeta

deriving instance DecidableEq for Except

namespace MfgMeta

/-! ### Claims -/

/-- C2: Round-trip of the self-referential hash: for every 32-byte-output
digest function (SHA-256 in the source; `crypto/sha256` is Go standard
library code, taken here as the parameter `sha`), every blob and every
valid hash offset, after `fillMetaHash` completes the 32 bytes at the hash
offset equal the digest of the whole blob with those 32 bytes replaced by
zero. -/
theorem c2_fillMetaHash_roundtrip (sha : List Nat → List Nat)
    (hsha : ∀ b, (sha b).length = META_HASH_SZ)
    (blob : List Nat) (hashOffset : Nat)
    (hrange : hashOffset + META_HASH_SZ ≤ blob.length) :
    ((fillMetaHash sha blob hashOffset).drop hashOffset).take META_HASH_SZ
      = sha (zeroHashField (fillMetaHash sha blob hashOffset) hashOffset) := by
  rw [zeroHashField_fillMetaHash sha blob hashOffset hrange]
  apply List.ext_getElem?
  intro k
  by_cases hk : k < META_HASH_SZ
  · rw [List.getElem?_take, if_pos hk, List.getElem?_drop]
    exact fillMetaHash_get_in sha blob hashOffset k hrange (hsha _) hk
  · rw [List.getElem?_take, if_neg hk]
    symm
    apply List.getElem?_eq_none
    rw [hsha]
    omega

/-- C2 witness: a concrete digest function, blob and offset. -/
theorem c2_witness :
    ((fillMetaHash (fun _ => List.replicate 32 1) (List.replicate 40 7) 3).drop
        3).take META_HASH_SZ
      = (fun _ => List.replicate 32 1)
          (zeroHashField
            (fillMetaHash (fun _ => List.replicate 32 1) (List.replicate 40 7) 3)
            3) :=
  c2_fillMetaHash_roundtrip (fun _ => List.replicate 32 1) (fun _ => rfl)
    (List.replicate 40 7) 3 (by decide)

/-- C8: Frame of the hash patcher: `calcMetaHash` restores the saved 32
bytes, so its final blob state equals its input; and `fillMetaHash` leaves
every byte outside `[hashOffset, hashOffset + 32)` unchanged. -/
theorem c8_hash_patch_frame (sha : List Nat → List Nat) (blob : List Nat)
    (hashOffset : Nat) (hrange : hashOffset + META_HASH_SZ ≤ blob.length) :
    (calcMetaHash sha blob hashOffset).1 = blob ∧
    (∀ j, j < hashOffset ∨ hashOffset + META_HASH_SZ ≤ j →
      (fillMetaHash sha blob hashOffset)[j]? = blob[j]?) :=
  ⟨calcMetaHash_fst sha blob hashOffset hrange,
   fun j hj => fillMetaHash_get_out sha blob hashOffset j hrange hj⟩

/-- C8 witness: concrete digest function, blob and offset. -/
theorem c8_witness :
    (calcMetaHash (fun _ => List.replicate 32 1) (List.replicate 40 7) 5).1
        = List.replicate 40 7 ∧
    (fillMetaHash (fun _ => List.replicate 32 1) (List.replicate 40 7) 5)[2]?
        = (List.replicate 40 7)[2]? :=
  ⟨(c8_hash_patch_frame (fun _ => List.replicate 32 1) (List.replicate 40 7) 5
      (by decide)).1,
   (c8_hash_patch_frame (fun _ => List.replicate 32 1) (List.replicate 40 7) 5
      (by decide)).2 2 (Or.inl (by decide))⟩

/-- C3 (amended): for every `FlashMap` the encoded region's final 4 bytes
are the little-endian magic constant; the footer's stored size field equals
the region's exact total byte length (body plus 8-byte footer) whenever
that length fits in 16 bits — in general the `uint16` field stores the
length mod 2^16. -/
theorem c3_footer_size_and_magic (fm : FlashMap) :
    (metaRegion fm.sortedAreas).drop ((metaRegion fm.sortedAreas).length - 4)
      = le32 META_MAGIC ∧
    decodeLe16 ((metaRegion fm.sortedAreas).drop
        ((metaRegion fm.sortedAreas).length - 8))
      = (metaRegion fm.sortedAreas).length % 2 ^ 16 ∧
    ((metaRegion fm.sortedAreas).length < 2 ^ 16 →
      decodeLe16 ((metaRegion fm.sortedAreas).drop
          ((metaRegion fm.sortedAreas).length - 8))
        = (metaRegion fm.sortedAreas).length) := by
  refine ⟨metaRegion_magic fm.sortedAreas, decode_footer_mod fm.sortedAreas, ?_⟩
  intro hlt
  rw [decode_footer_mod fm.sortedAreas]
  exact Nat.mod_eq_of_lt hlt

/-- C3 witness: a concrete one-area map (region length 60 < 2^16). -/
theorem c3_witness :
    decodeLe16 ((metaRegion (FlashMap.mk
        [(FLASH_AREA_NAME_BOOTLOADER, ⟨0, 0, 32, 60⟩)]).sortedAreas).drop
        ((metaRegion (FlashMap.mk
        [(FLASH_AREA_NAME_BOOTLOADER, ⟨0, 0, 32, 60⟩)]).sortedAreas).length - 8))
      = (metaRegion (FlashMap.mk
        [(FLASH_AREA_NAME_BOOTLOADER, ⟨0, 0, 32, 60⟩)]).sortedAreas).length :=
  (c3_footer_size_and_magic
    ⟨[(FLASH_AREA_NAME_BOOTLOADER, ⟨0, 0, 32, 60⟩)]⟩).2.2 (by decide)

/-- A flash map with 4681 areas, whose encoded meta region is
46 + 14 * 4681 = 65580 bytes long — longer than a `uint16` can store. -/
def bigFlashMap : FlashMap :=
  ⟨(List.range 4681).map (fun i => (toString i, ⟨i, 0, 0, 0⟩))⟩

/-- C3 counterexample: for the 4681-area map the footer's stored size field
decodes to 65580 mod 2^16 = 44, not the exact region length 65580 — the
claim "stores size equal to the exact total byte length" fails for this
`FlashMap` input. -/
theorem c3_counterexample :
    decodeLe16 ((metaRegion bigFlashMap.sortedAreas).drop
        ((metaRegion bigFlashMap.sortedAreas).length - 8))
      ≠ (metaRegion bigFlashMap.sortedAreas).length := by
  have hn : bigFlashMap.sortedAreas.length = 4681 := by
    rw [length_sortedAreas]
    simp [bigFlashMap]
  have hlen : (metaRegion bigFlashMap.sortedAreas).length = 65580 := by
    rw [metaRegion_length, hn]
  rw [decode_footer_mod, hlen]
  decide

/-- C6: the encoded region consists of the header, one 14-byte flash-area
TLV per area of the sorted sequence in order, the zero-hash TLV and the
footer; each TLV carries code 0x02 and payload size 12 and reproduces the
area's id, device, offset and size verbatim (the fields are 1, 1, 4 and 4
bytes, so verbatim requires the in-range hypotheses). -/
theorem c6_flash_area_tlvs (fm : FlashMap) :
    metaRegion fm.sortedAreas
      = headerBytes ++ (fm.sortedAreas.map flashAreaBytes).flatten
          ++ (zeroHashBytes ++ footerBytes (metaBody fm.sortedAreas).length) ∧
    (fm.sortedAreas.map flashAreaBytes).length = fm.sortedAreas.length ∧
    (∀ a ∈ fm.sortedAreas, a.id < 256 → a.device < 256 →
      a.offset < 2 ^ 32 → a.size < 2 ^ 32 →
      flashAreaBytes a
        = [META_TLV_CODE_FLASH_AREA, META_TLV_FLASH_AREA_SZ,
           a.id, a.device, 0xff, 0xff] ++ le32 a.offset ++ le32 a.size ∧
      decodeLe32 ((flashAreaBytes a).drop 6) = a.offset ∧
      decodeLe32 ((flashAreaBytes a).drop 10) = a.size) := by
  refine ⟨by simp [metaRegion, metaBody, List.append_assoc], List.length_map _ _, ?_⟩
  intro a _ h1 h2 h3 h4
  refine ⟨by simp [flashAreaBytes, Nat.mod_eq_of_lt h1, Nat.mod_eq_of_lt h2], ?_, ?_⟩
  · have hdrop : (flashAreaBytes a).drop 6 = le32 a.offset ++ le32 a.size := by
      simp [flashAreaBytes]
    rw [hdrop, decodeLe32_le32_append a.offset _ h3]
  · have hdrop : (flashAreaBytes a).drop 10 = le32 a.size ++ [] := by
      simp [flashAreaBytes, le32]
    rw [hdrop, decodeLe32_le32_append a.size [] h4]

/-- C6 witness: a concrete one-area map. -/
theorem c6_witness :
    flashAreaBytes ⟨1, 2, 3, 4⟩
      = [META_TLV_CODE_FLASH_AREA, META_TLV_FLASH_AREA_SZ, 1, 2, 0xff, 0xff]
          ++ le32 3 ++ le32 4 ∧
    decodeLe32 ((flashAreaBytes ⟨1, 2, 3, 4⟩).drop 6) = 3 ∧
    decodeLe32 ((flashAreaBytes ⟨1, 2, 3, 4⟩).drop 10) = 4 :=
  (c6_flash_area_tlvs ⟨[("scratch", ⟨1, 2, 3, 4⟩)]⟩).2.2 ⟨1, 2, 3, 4⟩
    (by decide) (by decide) (by decide) (by decide) (by decide)

/-- C4: the region is placed flush against the end of the boot-loader
area: every successful insertion writes at
`metaOff = bootArea.offset + bootArea.size - regionLength` and returns
`metaOff + hashSubOffset`; a boot-loader area whose size exactly equals the
region length succeeds (given an erased window in a spanning blob) with
`metaOff = bootArea.offset`; one byte smaller fails with the
region-too-large error reporting both sizes. -/
theorem c4_region_at_end (blob : List Nat) (fm : FlashMap) (ba : FlashArea)
    (hba : fm.lookup FLASH_AREA_NAME_BOOTLOADER = some ba) :
    (∀ off blob', insertMeta blob fm = some (Except.ok off, blob') →
      off = (ba.offset + ba.size - (metaRegion fm.sortedAreas).length)
              + hashSubOffset fm.sortedAreas ∧
      blob' = writeBytes blob
        (ba.offset + ba.size - (metaRegion fm.sortedAreas).length)
        (metaRegion fm.sortedAreas)) ∧
    (ba.size = (metaRegion fm.sortedAreas).length →
      ba.offset + ba.size ≤ blob.length →
      (∀ j, ba.offset ≤ j → j < ba.size → blob[j]? = some 0xff) →
      insertMeta blob fm
        = some (Except.ok (ba.offset + hashSubOffset fm.sortedAreas),
            writeBytes blob ba.offset (metaRegion fm.sortedAreas))) ∧
    (ba.size + 1 = (metaRegion fm.sortedAreas).length →
      insertMeta blob fm
        = some (Except.error (MetaErr.regionTooLarge ba.size
            (metaRegion fm.sortedAreas).length), blob)) := by
  refine ⟨?_, ?_, ?_⟩
  · intro off blob' h
    obtain ⟨_, hoff, hblob', _⟩ := insertMeta_ok_inv blob fm ba off blob' hba h
    exact ⟨hoff, hblob'⟩
  · intro hsize hspan herased
    have hmo : ba.offset + ba.size - (metaRegion fm.sortedAreas).length
        = ba.offset := by omega
    have h := insertMeta_success blob fm ba hba (Nat.le_of_eq hsize.symm) hspan
      (fun j hj1 hj2 => herased j (by omega) hj2)
    rw [hmo] at h
    exact h
  · intro hsize
    rw [insertMeta_eq, hba]
    have hsz : ba.size < (metaRegion fm.sortedAreas).length := by omega
    simp [hsz]

/-- C4 witness: boot-loader area at offset 32 with size 60 = region length,
erased 92-byte blob. -/
theorem c4_witness :
    insertMeta (List.replicate 92 0xff)
        (FlashMap.mk [(FLASH_AREA_NAME_BOOTLOADER, ⟨0, 0, 32, 60⟩)])
      = some (Except.ok (32 + hashSubOffset (FlashMap.mk
            [(FLASH_AREA_NAME_BOOTLOADER, ⟨0, 0, 32, 60⟩)]).sortedAreas),
          writeBytes (List.replicate 92 0xff) 32
            (metaRegion (FlashMap.mk
              [(FLASH_AREA_NAME_BOOTLOADER, ⟨0, 0, 32, 60⟩)]).sortedAreas)) :=
  (c4_region_at_end (List.replicate 92 0xff)
      ⟨[(FLASH_AREA_NAME_BOOTLOADER, ⟨0, 0, 32, 60⟩)]⟩ ⟨0, 0, 32, 60⟩
      (by decide)).2.1 (by decide) (by decide)
    (fun j hj1 hj2 => by
      have hj : j < 92 := by
        simp only at hj2
        omega
      rw [List.getElem?_replicate, if_pos hj])

/-- C5: atomicity of insertion: whenever `insertMeta` returns an error the
blob is byte-identical to its pre-call state, and on success only the bytes
of the destination window
`[metaOff, metaOff + regionLength) = [metaOff, bootArea.offset + bootArea.size)`
are mutated. -/
theorem c5_insertMeta_atomic (blob : List Nat) (fm : FlashMap)
    (pr : Except MetaErr Nat × List Nat)
    (h : insertMeta blob fm = some pr) :
    (∀ e, pr.1 = Except.error e → pr.2 = blob) ∧
    (∀ off ba, pr.1 = Except.ok off →
      fm.lookup FLASH_AREA_NAME_BOOTLOADER = some ba →
      ∀ j, j < ba.offset + ba.size - (metaRegion fm.sortedAreas).length ∨
          ba.offset + ba.size ≤ j →
        pr.2[j]? = blob[j]?) := by
  obtain ⟨r, b2⟩ := pr
  constructor
  · intro e he
    cases he
    exact insertMeta_error_inv blob fm e b2 h
  · intro off ba hok hba j hj
    cases hok
    obtain ⟨hfit, _, hblob', _⟩ := insertMeta_ok_inv blob fm ba off b2 hba h
    subst hblob'
    apply writeBytes_get_out
    rcases hj with hj | hj
    · exact Or.inl hj
    · right
      omega

/-- C5 witness: successful insertion into an erased 92-byte blob; the byte
at index 70 (past the boot-loader area's end 60) is untouched. -/
theorem c5_witness :
    (writeBytes (List.replicate 92 0xff) 0
        (metaRegion (FlashMap.mk
          [(FLASH_AREA_NAME_BOOTLOADER, ⟨0, 0, 0, 60⟩)]).sortedAreas))[70]?
      = (List.replicate 92 0xff)[70]? :=
  (c5_insertMeta_atomic (List.replicate 92 0xff)
      ⟨[(FLASH_AREA_NAME_BOOTLOADER, ⟨0, 0, 0, 60⟩)]⟩
      (Except.ok 20, writeBytes (List.replicate 92 0xff) 0
        (metaRegion (FlashMap.mk
          [(FLASH_AREA_NAME_BOOTLOADER, ⟨0, 0, 0, 60⟩)]).sortedAreas))
      (by decide)).2 20 ⟨0, 0, 0, 60⟩ rfl (by decide) 70 (Or.inr (by decide))

/-- C7: hash-offset bookkeeping: the hash sub-offset is the buffer length
right after the zero-hash TLV minus 32, the returned offset is
`metaOff + hashSubOffset`, and (for a blob spanning the boot-loader area)
the 32 bytes of the final blob at the returned offset are all zero. -/
theorem c7_hash_offset_exact (blob : List Nat) (fm : FlashMap)
    (ba : FlashArea) (off : Nat) (blob' : List Nat)
    (hba : fm.lookup FLASH_AREA_NAME_BOOTLOADER = some ba)
    (hspan : ba.offset + ba.size ≤ blob.length)
    (h : insertMeta blob fm = some (Except.ok off, blob')) :
    hashSubOffset fm.sortedAreas
      = (metaBody fm.sortedAreas).length - META_HASH_SZ ∧
    off = (ba.offset + ba.size - (metaRegion fm.sortedAreas).length)
            + hashSubOffset fm.sortedAreas ∧
    (∀ k, k < META_HASH_SZ → blob'[off + k]? = some 0) := by
  obtain ⟨hfit, hoff, hblob', _⟩ := insertMeta_ok_inv blob fm ba off blob' hba h
  refine ⟨rfl, hoff, ?_⟩
  intro k hk
  subst hblob'
  subst hoff
  have hso := hashSubOffset_eq fm.sortedAreas
  have hrl := metaRegion_length fm.sortedAreas
  have hk32 : k < 32 := by
    simpa [META_HASH_SZ] using hk
  have hidx : ba.offset + ba.size - (metaRegion fm.sortedAreas).length
      + hashSubOffset fm.sortedAreas + k
      - (ba.offset + ba.size - (metaRegion fm.sortedAreas).length)
      = hashSubOffset fm.sortedAreas + k := by omega
  rw [writeBytes_get_in _ _ _ _ (by omega) (by omega) (by omega), hidx]
  exact metaRegion_zero_window fm.sortedAreas k hk

/-- C7 witness: concrete successful insertion; the byte at the returned
offset is zero. -/
theorem c7_witness :
    (writeBytes (List.replicate 92 0xff) 32
        (metaRegion (FlashMap.mk
          [(FLASH_AREA_NAME_BOOTLOADER, ⟨0, 0, 32, 60⟩)]).sortedAreas))[52 + 0]?
      = some 0 :=
  (c7_hash_offset_exact (List.replicate 92 0xff)
      ⟨[(FLASH_AREA_NAME_BOOTLOADER, ⟨0, 0, 32, 60⟩)]⟩ ⟨0, 0, 32, 60⟩ 52
      (writeBytes (List.replicate 92 0xff) 32
        (metaRegion (FlashMap.mk
          [(FLASH_AREA_NAME_BOOTLOADER, ⟨0, 0, 32, 60⟩)]).sortedAreas))
      (by decide) (by decide) (by decide)).2.2 0 (by decide)

/-- C9: no encoding failure is reachable: `writeElem` always succeeds
(`bytes.Buffer` writes are infallible and all records are fixed-size), and
every error `insertMeta` returns is one of the three placement errors —
never `encodingFailure`. -/
theorem c9_no_encoding_failure (blob : List Nat) (fm : FlashMap)
    (pr : Except MetaErr Nat × List Nat)
    (h : insertMeta blob fm = some pr) :
    (∀ bs buf : List Nat, writeElem bs buf = Except.ok (buf ++ bs)) ∧
    (∀ e, pr.1 = Except.error e →
      e = MetaErr.missingBootArea ∨
      (∃ bootSz metaSz, e = MetaErr.regionTooLarge bootSz metaSz) ∨
      (∃ metaOff, e = MetaErr.spaceOccupied metaOff)) := by
  obtain ⟨r, b2⟩ := pr
  refine ⟨fun bs buf => rfl, ?_⟩
  intro e he
  cases he
  exact insertMeta_error_shape blob fm e b2 h

/-- C9 witness: an empty flash map produces the missing-boot-area error. -/
theorem c9_witness :
    (∀ bs buf : List Nat, writeElem bs buf = Except.ok (buf ++ bs)) ∧
    (∀ e, (Except.error MetaErr.missingBootArea : Except MetaErr Nat)
        = Except.error e →
      e = MetaErr.missingBootArea ∨
      (∃ bootSz metaSz, e = MetaErr.regionTooLarge bootSz metaSz) ∨
      (∃ metaOff, e = MetaErr.spaceOccupied metaOff)) :=
  c9_no_encoding_failure [] ⟨[]⟩
    (Except.error MetaErr.missingBootArea, []) (by decide)

/-- C10: unchecked blob-length precondition of `insertMeta`: a blob shorter
than `bootArea.Size` makes the erased-space scan index out of range (Go
panic, modelled as `none`); a blob that covers the scan window but ends
before `metaOff + regionLength` gets a silently truncated copy while
`insertMeta` returns success with a hash offset at or past the end of the
blob; and a blob spanning through the end of the boot-loader area never
panics. -/
theorem c10_blob_length_precondition :
    insertMeta (List.replicate 50 0xff)
        (FlashMap.mk [(FLASH_AREA_NAME_BOOTLOADER, ⟨0, 0, 0, 60⟩)]) = none ∧
    ((List.replicate 70 0xff).length
        < 50 + (metaRegion (FlashMap.mk
            [(FLASH_AREA_NAME_BOOTLOADER, ⟨0, 0, 50, 60⟩)]).sortedAreas).length ∧
     (insertMeta (List.replicate 70 0xff)
        (FlashMap.mk [(FLASH_AREA_NAME_BOOTLOADER, ⟨0, 0, 50, 60⟩)])).map
          Prod.fst = some (Except.ok 70) ∧
     (insertMeta (List.replicate 70 0xff)
        (FlashMap.mk [(FLASH_AREA_NAME_BOOTLOADER, ⟨0, 0, 50, 60⟩)])).map
          (fun p => p.2.length) = some 70 ∧
     (List.replicate 70 0xff).length ≤ 70) ∧
    (∀ (blob : List Nat) (fm : FlashMap) (ba : FlashArea),
      fm.lookup FLASH_AREA_NAME_BOOTLOADER = some ba →
      ba.offset + ba.size ≤ blob.length →
      insertMeta blob fm ≠ none) := by
  refine ⟨by decide, ⟨by decide, by decide, by decide, by decide⟩, ?_⟩
  intro blob fm ba hba hspan
  rw [insertMeta_eq, hba]
  by_cases hsz : ba.size < (metaRegion fm.sortedAreas).length
  · simp [hsz]
  · simp only [hsz, if_false]
    cases hs : scanErased blob
        (ba.offset + ba.size - (metaRegion fm.sortedAreas).length)
        (ba.size - (ba.offset + ba.size - (metaRegion fm.sortedAreas).length)) with
    | none =>
      exact absurd hs (scanErased_ne_none blob _ _ (by omega))
    | some b =>
      cases b with
      | false => simp
      | true =>
        have hmo : ba.offset + ba.size - (metaRegion fm.sortedAreas).length
            ≤ blob.length := by omega
        simp [hmo]

/-- C10 witness: a spanning blob never panics. -/
theorem c10_witness :
    insertMeta (List.replicate 92 0xff)
        (FlashMap.mk [(FLASH_AREA_NAME_BOOTLOADER, ⟨0, 0, 32, 60⟩)]) ≠ none :=
  c10_blob_length_precondition.2.2 (List.replicate 92 0xff)
    ⟨[(FLASH_AREA_NAME_BOOTLOADER, ⟨0, 0, 32, 60⟩)]⟩ ⟨0, 0, 32, 60⟩
    (by decide) (by decide)

/-- C1 (code bug): the erased-space scan's upper bound is `bootArea.Size`
where the destination window ends at `bootArea.Offset + bootArea.Size`.
With a boot-loader area at offset 32 and size 60 (region length exactly
60), the destination window is `[32, 92)` but the loop scans only
`[32, 60)`: the non-0xFF byte at blob index 70 — inside the window — goes
undetected and `insertMeta` succeeds (returning hash offset 52) instead of
failing with the space-occupied error required by the claim's "if and only
if". -/
theorem c1_scan_window_bug :
    ((List.replicate 92 0xff).set 70 0).length = 92 ∧
    ((List.replicate 92 0xff).set 70 0)[70]? = some 0 ∧
    (metaRegion (FlashMap.mk
        [(FLASH_AREA_NAME_BOOTLOADER, ⟨0, 0, 32, 60⟩)]).sortedAreas).length
      = 60 ∧
    (insertMeta ((List.replicate 92 0xff).set 70 0)
        (FlashMap.mk [(FLASH_AREA_NAME_BOOTLOADER, ⟨0, 0, 32, 60⟩)])).map
      Prod.fst = some (Except.ok 52) :=
  ⟨by decide, by decide, by decide, by decide⟩

end MfgMeta
